import Mathlib

set_option maxRecDepth 8000

/-!
Verification of the message/amount parsing and daily-total aggregation core of
the Personal-Finance-Tracker bot (src/bot.py).

Modelling conventions (shallow embedding):
* Python `float` values are modelled exactly, as an inductive type `PFloat`
  with a rational payload for finite values plus `inf`, `-inf` and `nan`.
  All concrete values appearing in the claims (integers up to a few billion,
  and decimals such as 1.5) are exactly representable as IEEE doubles, so the
  exact-rational model agrees with Python on them.
* Python strings are modelled as `String` / `List Char`, restricted to the
  ASCII behaviour of `str.strip()`, `str.lower()`, and of `\d`, `\s`, `[a-z]`
  in the `re` module.
* Dynamically typed spreadsheet cell values (what `gspread`'s
  `get_all_records` can place in a record) are modelled by `PyObj`:
  int, float, str, or anything else.
* `try`/`except` blocks are modelled with `Except Unit`.
-/

/-! ### Character classes: ASCII semantics of `\d`, `\s`, `[a-z]`, `str.lower` -/

def isDigitC (c : Char) : Bool := 48 ≤ c.toNat && c.toNat ≤ 57

def isLowerAZ (c : Char) : Bool := 97 ≤ c.toNat && c.toNat ≤ 122

def isUpperAZ (c : Char) : Bool := 65 ≤ c.toNat && c.toNat ≤ 90

/-- Whitespace recognized by Python's `str.strip()` / regex `\s` (ASCII part):
space, tab, newline, carriage return, vertical tab, form feed. -/
def isPySpace (c : Char) : Bool :=
  c.toNat = 32 || c.toNat = 9 || c.toNat = 10 || c.toNat = 13 ||
  c.toNat = 11 || c.toNat = 12

/-- ASCII lowering, as `str.lower()` acts on ASCII text. -/
def lowerChar (c : Char) : Char :=
  if isUpperAZ c then Char.ofNat (c.toNat + 32) else c

def pyLowerList (l : List Char) : List Char := l.map lowerChar

/-- Python `str.strip()`: drop leading and trailing whitespace. -/
def pyStripList (l : List Char) : List Char :=
  ((l.dropWhile isPySpace).reverse.dropWhile isPySpace).reverse

/-- Numeric value of a digit string, most significant digit first.
The empty list yields 0, matching `float(cleaned) if cleaned else 0.0`. -/
def natOfDigits (l : List Char) : ℕ :=
  l.foldl (fun a c => 10 * a + (c.toNat - 48)) 0

/-- Pure prefix test on character lists (used for substring search). -/
def listIsPre : List Char → List Char → Bool
  | [], _ => true
  | _ :: _, [] => false
  | a :: n, b :: h => a == b && listIsPre n h

/-- Python's substring operator `needle in hay`. -/
def strContains (hay needle : String) : Bool :=
  (List.range (hay.toList.length + 1)).any
    (fun i => listIsPre needle.toList (hay.toList.drop i))

/-! ### Python float values -/

/-- A Python `float`; finite values are modelled as exact rationals. -/
inductive PFloat where
  | num (q : ℚ)
  | pinf
  | ninf
  | nan
deriving DecidableEq

/-- Addition of Python floats, exact on the finite values we track:
`nan` absorbs, opposite infinities give `nan`. -/
def PFloat.add : PFloat → PFloat → PFloat
  | .num a, .num b => .num (a + b)
  | .nan, _ => .nan
  | _, .nan => .nan
  | .pinf, .ninf => .nan
  | .ninf, .pinf => .nan
  | .pinf, _ => .pinf
  | _, .pinf => .pinf
  | .ninf, _ => .ninf
  | _, .ninf => .ninf

/-! ### Python's `float(string)` conversion

Grammar accepted by CPython's `float()`: surrounding whitespace, an optional
sign, then either `inf`/`infinity`/`nan` (case-insensitive) or a decimal
mantissa (digits with single underscores allowed between digits, an optional
decimal point) with an optional exponent part. -/

/-- Consume a Python digit-part continuation: digits, with a single `_`
allowed between two digits. Returns (value so far, number of digits, rest). -/
def digitsUGo : ℕ → ℕ → List Char → ℕ × ℕ × List Char
  | acc, len, [] => (acc, len, [])
  | acc, len, c :: rest =>
    if isDigitC c then digitsUGo (10 * acc + (c.toNat - 48)) (len + 1) rest
    else if c = '_' then
      match rest with
      | d :: rest2 =>
        if isDigitC d then digitsUGo (10 * acc + (d.toNat - 48)) (len + 1) rest2
        else (acc, len, c :: rest)
      | [] => (acc, len, c :: rest)
    else (acc, len, c :: rest)

/-- A Python digit-part: at least one digit, underscores between digits. -/
def digitsU (l : List Char) : Option (ℕ × ℕ × List Char) :=
  match l with
  | c :: rest => if isDigitC c then some (digitsUGo (c.toNat - 48) 1 rest) else none
  | [] => none

/-- Optional leading sign; returns (isNegative, rest). -/
def readSign (l : List Char) : Bool × List Char :=
  match l with
  | [] => (false, [])
  | c :: rest =>
    if c = '+' then (false, rest)
    else if c = '-' then (true, rest)
    else (false, c :: rest)

/-- Exponent suffix of a float literal: empty, or `e`/`E`, optional sign,
digit-part consuming the whole remainder. -/
def expPart (l : List Char) : Option ℤ :=
  match l with
  | [] => some 0
  | c :: rest =>
    if c = 'e' ∨ c = 'E' then
      let s := readSign rest
      match digitsU s.2 with
      | some (v, _, r3) =>
        if r3.isEmpty then some (if s.1 then -(v : ℤ) else (v : ℤ)) else none
      | none => none
    else none

/-- Python's `float(s)` on a string, returning `none` on `ValueError`. -/
def pyFloatOfList (l0 : List Char) : Option PFloat :=
  let l1 := pyStripList l0
  let sg := readSign l1
  let l := sg.2
  let low := pyLowerList l
  if low = ['i', 'n', 'f'] ∨ low = ['i', 'n', 'f', 'i', 'n', 'i', 't', 'y'] then
    some (if sg.1 then .ninf else .pinf)
  else if low = ['n', 'a', 'n'] then some .nan
  else
    match digitsU l with
    | some (ip, _, r) =>
      match r with
      | c :: r2 =>
        if c = '.' then
          match digitsU r2 with
          | some (fp, fn, r3) =>
            (expPart r3).map (fun e =>
              .num ((if sg.1 then (-1 : ℚ) else 1) * ((ip : ℚ) + (fp : ℚ) / 10 ^ fn) * 10 ^ e))
          | none =>
            (expPart r2).map (fun e =>
              .num ((if sg.1 then (-1 : ℚ) else 1) * (ip : ℚ) * 10 ^ e))
        else
          (expPart (c :: r2)).map (fun e =>
            .num ((if sg.1 then (-1 : ℚ) else 1) * (ip : ℚ) * 10 ^ e))
      | [] =>
        (expPart []).map (fun e =>
          .num ((if sg.1 then (-1 : ℚ) else 1) * (ip : ℚ) * 10 ^ e))
    | none =>
      match l with
      | c :: r2 =>
        if c = '.' then
          match digitsU r2 with
          | some (fp, fn, r3) =>
            (expPart r3).map (fun e =>
              .num ((if sg.1 then (-1 : ℚ) else 1) * ((fp : ℚ) / 10 ^ fn) * 10 ^ e))
          | none => none
        else none
      | [] => none

/-! ### Dynamically typed cell values and their `str()` -/

/-- A Python object as it can occur in a spreadsheet record or as a user id:
an int, a float, a string, or anything else (e.g. `None`). -/
inductive PyObj where
  | int (n : ℤ)
  | float (f : PFloat)
  | str (s : String)
  | other
deriving DecidableEq

/-- Decimal rendering of a finite float value, mirroring `str()` on the
decimal-valued floats that occur in spreadsheet data (integral values render
as `n.0` like Python; non-integral decimal values render with their exact
decimal digits; binary floats are modelled as exact decimals throughout). -/
def pyStrFloat (q : ℚ) : String :=
  if q.den = 1 then toString q.num ++ ".0"
  else
    match (List.range 1100).find? (fun k => (q * (10 : ℚ) ^ k).den == 1) with
    | some k =>
      let m := (q * (10 : ℚ) ^ k).num
      let sign := if m < 0 then "-" else ""
      let a := m.natAbs
      let fpS := toString (a % 10 ^ k)
      let fpS := String.mk (List.replicate (k - fpS.length) '0') ++ fpS
      sign ++ toString (a / 10 ^ k) ++ "." ++ fpS
    | none => toString q.num ++ "e" ++ toString q.den

def pyStrPF : PFloat → String
  | .num q => pyStrFloat q
  | .pinf => "inf"
  | .ninf => "-inf"
  | .nan => "nan"

/-- Python's `str()` on a cell value. -/
def pyStr : PyObj → String
  | .int n => toString n
  | .float f => pyStrPF f
  | .str s => s
  | .other => "None"

/-! ### The Amount Parser: `parse_rupiah_amount` (src/bot.py lines 112-136) -/

/-- Python `s.replace("Rp", "")`: drop every (non-overlapping, leftmost-first)
occurrence of the two-character substring `Rp`. -/
def pyReplaceRp : List Char → List Char
  | [] => []
  | [c] => [c]
  | c :: c2 :: rest =>
    if c = 'R' ∧ c2 = 'p' then pyReplaceRp rest
    else c :: pyReplaceRp (c2 :: rest)

/-- `parse_rupiah_amount`: numbers pass through as floats; strings are
cleaned (`replace("Rp","")`, `strip()`, drop `.` and `,`, drop remaining
non-digits via `re.sub(r"[^\d]", "", ...)`) and the digit string is parsed,
the empty digit string giving 0.0; any other type gives 0.0.  The
`except (ValueError, TypeError)` branch is unreachable in this model because
`float` of an all-digit string never fails. -/
def parse_rupiah_amount : PyObj → PFloat
  | .int n => .num (n : ℚ)
  | .float f => f
  | .str s =>
    let c1 := pyStripList (pyReplaceRp s.toList)
    let c2 := (c1.filter (fun c => c ≠ '.')).filter (fun c => c ≠ ',')
    let c3 := c2.filter isDigitC
    .num (natOfDigits c3)
  | .other => .num 0

/-! ### The Message Parser: `parse_flexible_message` (src/bot.py lines 175-229)

Step 1 searches for the regex `(\d+\.?\d*)\s*([a-z]{1,2})`.  For this pattern,
backtracking never helps (`[a-z]` matches no digit, dot or whitespace), so the
leftmost match is computed by: maximal digit run, optional dot plus maximal
digit run, maximal whitespace run, then one or two lowercase letters, greedy. -/

/-- Final piece of the regex: `[a-z]{1,2}` (greedy) at the remainder `r3`. -/
def tryMatchSuffix (g1 r3 : List Char) : Option (List Char × List Char × List Char) :=
  match r3 with
  | c1 :: rest1 =>
    if isLowerAZ c1 then
      match rest1 with
      | c2 :: rest2 =>
        if isLowerAZ c2 then some (g1, [c1, c2], rest2) else some (g1, [c1], c2 :: rest2)
      | [] => some (g1, [c1], [])
    else none
  | [] => none

/-- Middle of the regex after the leading digit run `d1`: `\.?\d*` then `\s*`. -/
def tryMatchTail (d1 r1 : List Char) : Option (List Char × List Char × List Char) :=
  match r1 with
  | c :: rest =>
    if c = '.' then
      tryMatchSuffix (d1 ++ '.' :: rest.takeWhile isDigitC)
        ((rest.dropWhile isDigitC).dropWhile isPySpace)
    else tryMatchSuffix d1 ((c :: rest).dropWhile isPySpace)
  | [] => tryMatchSuffix d1 []

/-- Try to match `(\d+\.?\d*)\s*([a-z]{1,2})` at the start of `l`; returns
(group 1, group 2, remainder after the whole match). -/
def tryMatch (l : List Char) : Option (List Char × List Char × List Char) :=
  if (l.takeWhile isDigitC).isEmpty then none
  else tryMatchTail (l.takeWhile isDigitC) (l.dropWhile isDigitC)

/-- `re.search` for the pattern: leftmost match; returns
(text before the match, group 1, group 2, text after the match).
`re.sub(pattern, "", message, count=1)` removes the same span, leaving
before ++ after. -/
def searchMatch : List Char → Option (List Char × List Char × List Char × List Char)
  | [] => none
  | c :: cs =>
    match tryMatch (c :: cs) with
    | some (g1, g2, rest) => some ([], g1, g2, rest)
    | none =>
      match searchMatch cs with
      | some (b, g1, g2, rest) => some (c :: b, g1, g2, rest)
      | none => none

/-- Value of group 1 (`\d+\.?\d*`) as a Python float: `float(amount_str)`. -/
def ratOfNumeral (l : List Char) : ℚ :=
  match l.dropWhile isDigitC with
  | c :: rest =>
    if c = '.' then
      (natOfDigits (l.takeWhile isDigitC) : ℚ) + (natOfDigits rest : ℚ) / 10 ^ rest.length
    else (natOfDigits (l.takeWhile isDigitC) : ℚ)
  | [] => (natOfDigits (l.takeWhile isDigitC) : ℚ)

/-- The `multipliers` table; group 2 is already lowercase since `[a-z]`
only matches lowercase letters (the code's extra `.lower()` is a no-op). -/
def multLookupN (g : List Char) : Option ℕ :=
  if g = ['k'] then some 1000
  else if g = ['r', 'b'] then some 1000
  else if g = ['m'] then some 1000000
  else if g = ['j', 't'] then some 1000000
  else if g = ['b'] then some 1000000000
  else none

/-- `re.sub(r"\s+", " ", s)`: collapse every whitespace run to one space. -/
def collapseWsAux : Bool → List Char → List Char
  | _, [] => []
  | inRun, c :: cs =>
    if isPySpace c then
      if inRun then collapseWsAux true cs else ' ' :: collapseWsAux true cs
    else c :: collapseWsAux false cs

def collapseWs (l : List Char) : List Char := collapseWsAux false l

/-- Python `message.split(" ", 1)` restricted to the two-part case: split at
the first space character; `none` when the message contains no space, which
is exactly when `len(parts) == 2` fails. -/
def splitOnceOnSpace : List Char → Option (List Char × List Char)
  | [] => none
  | c :: rest =>
    if c = ' ' then some ([], rest)
    else (splitOnceOnSpace rest).map (fun p => (c :: p.1, p.2))

/-- `parse_flexible_message`: strip and lower the message; step 1 searches for
a number with an optional 1-2 letter suffix (whitespace allowed in between by
`\s*`), applies the multiplier table to known suffixes, and derives the
description by removing the matched span, collapsing whitespace, stripping,
with fallback text "miscellaneous"; step 2 splits at the first space and tries
`float` on either part; otherwise no parse (`(None, None)`).
In step 1 the `except ValueError` branch is dead: group 1 always parses. -/
def parse_flexible_message (message : String) : Option (PFloat × String) :=
  let msg := pyLowerList (pyStripList message.toList)
  match searchMatch msg with
  | some (before, g1, g2, after) =>
    let base := ratOfNumeral g1
    let amount : ℚ :=
      match multLookupN g2 with
      | some m => base * (m : ℚ)
      | none => base
    let d1 := pyStripList (collapseWs (pyStripList (before ++ after)))
    let desc := if d1.isEmpty then "miscellaneous" else String.mk d1
    some (.num amount, desc)
  | none =>
    match splitOnceOnSpace msg with
    | some (p0, p1) =>
      match pyFloatOfList p0 with
      | some a => some (a, String.mk (pyStripList p1))
      | none =>
        match pyFloatOfList p1 with
        | some a => some (a, String.mk (pyStripList p0))
        | none => none
    | none => none

/-! ### The Ledger Aggregator: `get_daily_total` (src/bot.py lines 138-163) -/

/-- One spreadsheet record as a mapping; `none` in a field models a record
dict lacking that key. -/
structure SheetRecord where
  dateF : Option PyObj
  amountF : Option PyObj
  userF : Option PyObj
deriving DecidableEq

/-- `record["Date"].split(" ")[0] if " " in str(record["Date"]) else
str(record["Date"])`.  For non-string values `str()` never contains a space,
so `.split` is only ever called on actual strings. -/
def dayPortion (v : PyObj) : String :=
  match v with
  | .str s =>
    if s.toList.any (fun c => c = ' ') then
      String.mk (s.toList.takeWhile (fun c => c ≠ ' '))
    else s
  | w => pyStr w

/-- Loop body of `get_daily_total`: records with both a `Date` and an
`Amount` key whose day portion equals today and whose `UserID` (default "")
stringification contains `str(user_id)` add their parsed amount. -/
def dailyStep (today : String) (uid : PyObj) (acc : PFloat) (r : SheetRecord) : PFloat :=
  match r.dateF, r.amountF with
  | some dv, some av =>
    if dayPortion dv == today && strContains (pyStr (r.userF.getD (.str ""))) (pyStr uid) then
      acc.add (parse_rupiah_amount av)
    else acc
  | _, _ => acc

/-- Round half to even, the rounding mode of Python's `round`. -/
def roundHalfEven (x : ℚ) : ℤ :=
  let f := ⌊x⌋
  let r := x - f
  if r < 1 / 2 then f
  else if 1 / 2 < r then f + 1
  else if f % 2 = 0 then f else f + 1

/-- `round(x, 2)` on a finite float (exact on the decimal values we track). -/
def pyRound2 (q : ℚ) : ℚ := (roundHalfEven (q * 100) : ℚ) / 100

/-- `round(x, 2)` on a float: a finite value is rounded; a non-finite value is
returned unchanged — `round(float("inf"), 2) == inf` in CPython, `round` with
an `ndigits` argument never raises on a float. -/
def pyRoundPF : PFloat → PFloat
  | .num q => .num (pyRound2 q)
  | f => f

/-- Body of the `try` block of `get_daily_total`: read all records (the read
itself may raise, modelled by an `Except` input), sum the qualifying amounts,
and round.  In this model the record read is the only raise point: the loop
body and `round` are total. -/
def aggregate (recordsE : Except Unit (List SheetRecord)) (today : String) (uid : PyObj) :
    Except Unit PFloat :=
  match recordsE with
  | .error e => .error e
  | .ok records => .ok (pyRoundPF (records.foldl (dailyStep today uid) (.num 0)))

/-- `get_daily_total`: the `except Exception: return 0` wrapper around
`aggregate`.  `today` is the wall-clock date string
(`date.today().strftime("%Y-%m-%d")`), passed as a parameter. -/
def get_daily_total (recordsE : Except Unit (List SheetRecord)) (today : String)
    (uid : PyObj) : PFloat :=
  match aggregate recordsE today uid with
  | .ok t => t
  | .error _ => .num 0

/-! ### Specification-side definitions (for the refinement claims C7/C10) -/

/-- Spec-side filter: a record qualifies when it has both keys, its Date's
day portion string-equals today, and its UserID stringification contains the
queried id as a substring. -/
def specMatches (today : String) (uid : PyObj) (r : SheetRecord) : Bool :=
  r.dateF.isSome && r.amountF.isSome &&
  (match r.dateF with
   | some dv => dayPortion dv == today
   | none => false) &&
  strContains (pyStr (r.userF.getD (.str ""))) (pyStr uid)

/-- Spec-side total: sum of the parsed amounts of exactly the qualifying
records. -/
def specSum (today : String) (uid : PyObj) (l : List SheetRecord) : PFloat :=
  (l.filter (specMatches today uid)).foldl
    (fun acc r => acc.add (parse_rupiah_amount (r.amountF.getD .other))) (.num 0)

/-- Spec-side daily total: the sum of the qualifying amounts, rounded to 2
decimal places. -/
def specDailyTotal (today : String) (uid : PyObj) (l : List SheetRecord) : PFloat :=
  pyRoundPF (specSum today uid l)

/-- Shape of regex group 1 when it consumes a whole token: `\d+\.?\d*`. -/
def numeralShape (l : List Char) : Bool :=
  !(l.takeWhile isDigitC).isEmpty &&
  (match l.dropWhile isDigitC with
   | [] => true
   | c :: rest => c = '.' && rest.all isDigitC)

/-! ### Helper lemmas: character classes -/

lemma isPySpace_of_digit {c : Char} (h : isDigitC c = true) : isPySpace c = false := by
  simp only [isDigitC, Bool.and_eq_true, decide_eq_true_eq] at h
  simp only [isPySpace, Bool.or_eq_false_iff, decide_eq_false_iff_not]
  omega

lemma lowerChar_of_digit {c : Char} (h : isDigitC c = true) : lowerChar c = c := by
  simp only [isDigitC, Bool.and_eq_true, decide_eq_true_eq] at h
  unfold lowerChar
  rw [if_neg]
  simp only [isUpperAZ, Bool.and_eq_true, decide_eq_true_eq, not_and]
  omega

lemma digit_ne {c : Char} (h : isDigitC c = true) :
    c ≠ '+' ∧ c ≠ '-' ∧ c ≠ '.' ∧ c ≠ '_' ∧ c ≠ ',' := by
  refine ⟨?_, ?_, ?_, ?_, ?_⟩ <;> (intro hc; subst hc; exact absurd h (by decide))

lemma isLowerAZ_of_dot : isLowerAZ '.' = false := by decide

/-! ### Helper lemmas: stripping -/

lemma dropWhile_eq_self_head {p : Char → Bool} {l : List Char}
    (h : ∀ c, l.head? = some c → p c = false) : l.dropWhile p = l := by
  cases l with
  | nil => rfl
  | cons c cs =>
    rw [List.dropWhile_cons_of_neg]
    simp [h c rfl]

lemma takeWhile_eq_nil_head {p : Char → Bool} {l : List Char}
    (h : ∀ c, l.head? = some c → p c = false) : l.takeWhile p = [] := by
  cases l with
  | nil => rfl
  | cons c cs =>
    rw [List.takeWhile_cons_of_neg]
    simp [h c rfl]

lemma pyStrip_eq_self {l : List Char}
    (h1 : ∀ c, l.head? = some c → isPySpace c = false)
    (h2 : ∀ c, l.getLast? = some c → isPySpace c = false) : pyStripList l = l := by
  unfold pyStripList
  rw [dropWhile_eq_self_head h1]
  rw [dropWhile_eq_self_head (fun c hc => h2 c (by rwa [List.head?_reverse] at hc))]
  exact l.reverse_reverse

lemma pyStrip_of_noSpace {l : List Char} (h : ∀ c ∈ l, isPySpace c = false) :
    pyStripList l = l := by
  refine pyStrip_eq_self (fun c hc => h c ?_) (fun c hc => h c (List.mem_of_getLast?_eq_some hc))
  cases l with
  | nil => simp at hc
  | cons a t =>
    simp only [List.head?_cons, Option.some.injEq] at hc
    exact hc ▸ List.mem_cons_self a t

/-! ### Helper lemmas: digit runs -/

lemma head?_dropWhile {p : Char → Bool} {l : List Char} {c : Char}
    (h : (l.dropWhile p).head? = some c) : p c = false := by
  have h2 := List.head?_dropWhile_not p l
  rw [h] at h2
  exact h2

lemma takeWhile_digits_append {A r : List Char} (hA : ∀ c ∈ A, isDigitC c = true)
    (hr : ∀ c, r.head? = some c → isDigitC c = false) :
    (A ++ r).takeWhile isDigitC = A ∧ (A ++ r).dropWhile isDigitC = r := by
  induction A with
  | nil =>
    exact ⟨takeWhile_eq_nil_head hr, dropWhile_eq_self_head hr⟩
  | cons a A ih =>
    have ha := hA a (List.mem_cons_self a A)
    have ih2 := ih (fun c hc => hA c (List.mem_cons_of_mem a hc))
    simp only [List.cons_append, List.takeWhile_cons_of_pos ha,
      List.dropWhile_cons_of_pos ha]
    exact ⟨by rw [ih2.1], ih2.2⟩

/-! ### Helper lemmas: the step-1 regex never matches inside `D A`-shaped text -/

lemma tryMatchSuffix_none {g1 r3 : List Char}
    (h : r3 = [] ∨ ∃ t, r3 = '.' :: t) : tryMatchSuffix g1 r3 = none := by
  rcases h with rfl | ⟨t, rfl⟩
  · rfl
  · simp [tryMatchSuffix, isLowerAZ_of_dot]

lemma tryMatch_nonDigitHead {c : Char} {cs : List Char} (h : isDigitC c = false) :
    tryMatch (c :: cs) = none := by
  unfold tryMatch
  rw [if_pos]
  simp [List.takeWhile_cons, h]

lemma tryMatch_digitdot {l : List Char} (h : ∀ c ∈ l, isDigitC c = true ∨ c = '.') :
    tryMatch l = none := by
  by_cases h0 : (l.takeWhile isDigitC).isEmpty
  · unfold tryMatch
    rw [if_pos h0]
  · unfold tryMatch
    rw [if_neg h0]
    have hmem1 : ∀ c ∈ l.dropWhile isDigitC, isDigitC c = true ∨ c = '.' :=
      fun c hc => h c (List.dropWhile_subset _ hc)
    cases hr1c : l.dropWhile isDigitC with
    | nil => simp [tryMatchTail, tryMatchSuffix]
    | cons c t =>
      have hcne : isDigitC c = false := head?_dropWhile (by rw [hr1c]; rfl)
      have hc' : c = '.' := by
        rcases hmem1 c (by rw [hr1c]; exact List.mem_cons_self c t) with h1 | h1
        · rw [hcne] at h1; cases h1
        · exact h1
      subst hc'
      have hmem2 : ∀ c ∈ t.dropWhile isDigitC, isDigitC c = true ∨ c = '.' := by
        intro c hc
        refine hmem1 c ?_
        rw [hr1c]
        exact List.mem_cons_of_mem _ (List.dropWhile_subset _ hc)
      simp only [tryMatchTail, eq_self_iff_true, if_true]
      cases hr2c : t.dropWhile isDigitC with
      | nil => simp [tryMatchSuffix]
      | cons c2 t2 =>
        have hc2ne : isDigitC c2 = false := head?_dropWhile (by rw [hr2c]; rfl)
        have hc2' : c2 = '.' := by
          rcases hmem2 c2 (by rw [hr2c]; exact List.mem_cons_self c2 t2) with h1 | h1
          · rw [hc2ne] at h1; cases h1
          · exact h1
        subst hc2'
        rw [dropWhile_eq_self_head (p := isPySpace)
          (by intro x hx; simp only [List.head?_cons, Option.some.injEq] at hx; subst hx; decide)]
        apply tryMatchSuffix_none
        exact Or.inr ⟨t2, rfl⟩

lemma searchMatch_digitdot {l : List Char} (h : ∀ c ∈ l, isDigitC c = true ∨ c = '.') :
    searchMatch l = none := by
  induction l with
  | nil => rfl
  | cons c cs ih =>
    have h1 : tryMatch (c :: cs) = none := tryMatch_digitdot h
    have h2 : searchMatch cs = none := ih (fun x hx => h x (List.mem_cons_of_mem _ hx))
    simp [searchMatch, h1, h2]

lemma searchMatch_skip {pre N : List Char} (h : ∀ c ∈ pre, isDigitC c = false)
    (hN : searchMatch N = none) : searchMatch (pre ++ N) = none := by
  induction pre with
  | nil => simpa
  | cons c cs ih =>
    have h1 : tryMatch (c :: (cs ++ N)) = none :=
      tryMatch_nonDigitHead (h c (List.mem_cons_self c cs))
    have h2 : searchMatch (cs ++ N) = none := ih (fun x hx => h x (List.mem_cons_of_mem _ hx))
    simp [searchMatch, h1, h2]

/-! ### Helper lemmas: `float()` on a plain numeral -/

lemma digitsUGo_spec {ds : List Char} (hd : ∀ c ∈ ds, isDigitC c = true) {r : List Char}
    (hr : r = [] ∨ ∃ t, r = '.' :: t) (acc len : ℕ) :
    digitsUGo acc len (ds ++ r) =
      (ds.foldl (fun a c => 10 * a + (c.toNat - 48)) acc, len + ds.length, r) := by
  induction ds generalizing acc len with
  | nil =>
    rcases hr with rfl | ⟨t, rfl⟩
    · rfl
    · have e1 : isDigitC '.' = false := by decide
      have e2 : ¬(('.' : Char) = '_') := by decide
      rw [List.nil_append, digitsUGo.eq_def]
      simp [e1, e2]
  | cons c ds ih =>
    have hc := hd c (List.mem_cons_self c ds)
    rw [List.cons_append, digitsUGo.eq_def]
    simp only [hc, if_pos]
    rw [ih (fun x hx => hd x (List.mem_cons_of_mem c hx))]
    simp only [List.foldl_cons, List.length_cons, Prod.mk.injEq]
    refine ⟨?_, ?_, ?_⟩ <;> first | trivial | omega

lemma digitsU_digits {A r : List Char} (hA0 : A ≠ []) (hA : ∀ c ∈ A, isDigitC c = true)
    (hr : r = [] ∨ ∃ t, r = '.' :: t) :
    digitsU (A ++ r) = some (natOfDigits A, A.length, r) := by
  cases A with
  | nil => exact absurd rfl hA0
  | cons a A =>
    have ha := hA a (List.mem_cons_self a A)
    rw [List.cons_append, digitsU.eq_def]
    simp only [ha, if_pos]
    rw [digitsUGo_spec (fun x hx => hA x (List.mem_cons_of_mem a hx)) hr]
    simp only [natOfDigits, List.foldl_cons, List.length_cons, Option.some.injEq, Prod.mk.injEq]
    refine ⟨?_, ?_, ?_⟩ <;> first | trivial | omega | norm_num

lemma natOfDigits_nil : natOfDigits [] = 0 := rfl

lemma ratOfNumeral_eq_of_nil {N : List Char} (hd : N.dropWhile isDigitC = []) :
    ratOfNumeral N = natOfDigits (N.takeWhile isDigitC) := by
  unfold ratOfNumeral
  rw [hd]

lemma ratOfNumeral_eq_of_dot {N t : List Char} (hd : N.dropWhile isDigitC = '.' :: t) :
    ratOfNumeral N =
      (natOfDigits (N.takeWhile isDigitC) : ℚ) + (natOfDigits t : ℚ) / 10 ^ t.length := by
  unfold ratOfNumeral
  rw [hd]
  simp

lemma numeralShape_parts {N : List Char} (h : numeralShape N = true) :
    N.takeWhile isDigitC ≠ [] ∧
    (N.dropWhile isDigitC = [] ∨
      ∃ t, N.dropWhile isDigitC = '.' :: t ∧ ∀ c ∈ t, isDigitC c = true) := by
  unfold numeralShape at h
  rw [Bool.and_eq_true] at h
  obtain ⟨h1, h2⟩ := h
  constructor
  · intro he
    rw [he] at h1
    simp at h1
  · cases hd : N.dropWhile isDigitC with
    | nil => exact Or.inl rfl
    | cons c t =>
      rw [hd] at h2
      simp only [Bool.and_eq_true, decide_eq_true_eq, List.all_eq_true] at h2
      obtain ⟨hc, ht⟩ := h2
      subst hc
      exact Or.inr ⟨t, rfl, ht⟩

lemma pyFloat_numeral {N : List Char} (h : numeralShape N = true) :
    pyFloatOfList N = some (.num (ratOfNumeral N)) := by
  obtain ⟨h1, hcase⟩ := numeralShape_parts h
  have hA : ∀ c ∈ N.takeWhile isDigitC, isDigitC c = true :=
    fun c hc => List.mem_takeWhile_imp hc
  have hN : N.takeWhile isDigitC ++ N.dropWhile isDigitC = N :=
    List.takeWhile_append_dropWhile isDigitC N
  have hchars : ∀ c ∈ N, isDigitC c = true ∨ c = '.' := by
    intro c hc
    rw [← hN] at hc
    rcases List.mem_append.mp hc with hc | hc
    · exact Or.inl (hA c hc)
    · rcases hcase with hd | ⟨t, hd, ht⟩
      · rw [hd] at hc
        simp at hc
      · rw [hd] at hc
        rcases List.mem_cons.mp hc with rfl | hc
        · exact Or.inr rfl
        · exact Or.inl (ht c hc)
  have hstrip : pyStripList N = N := by
    refine pyStrip_of_noSpace (fun c hc => ?_)
    rcases hchars c hc with hd | rfl
    · exact isPySpace_of_digit hd
    · decide
  obtain ⟨a, A', hA1⟩ : ∃ a A', N.takeWhile isDigitC = a :: A' := by
    cases hA1 : N.takeWhile isDigitC with
    | nil => exact absurd hA1 h1
    | cons a A' => exact ⟨a, A', rfl⟩
  have ha : isDigitC a = true := hA a (by rw [hA1]; exact List.mem_cons_self a A')
  obtain ⟨restN, hNeq⟩ : ∃ restN, N = a :: restN := by
    refine ⟨A' ++ N.dropWhile isDigitC, ?_⟩
    conv_lhs => rw [← hN, hA1]
    rfl
  have hsign : readSign N = (false, N) := by
    rw [hNeq]
    simp [readSign, (digit_ne ha).1, (digit_ne ha).2.1]
  have hlow : pyLowerList N = N := by
    unfold pyLowerList
    rw [List.map_congr_left (g := id) ?_, List.map_id]
    intro c hc
    rcases hchars c hc with hd | rfl
    · exact lowerChar_of_digit hd
    · decide
  have hne1 : ¬(pyLowerList N = ['i', 'n', 'f'] ∨
      pyLowerList N = ['i', 'n', 'f', 'i', 'n', 'i', 't', 'y']) := by
    rw [hlow, hNeq]
    rintro (he | he) <;>
      (injection he with hh _; subst hh; exact absurd ha (by decide))
  have hne2 : ¬(pyLowerList N = ['n', 'a', 'n']) := by
    rw [hlow, hNeq]
    intro he
    injection he with hh _
    subst hh
    exact absurd ha (by decide)
  have hdig : digitsU N =
      some (natOfDigits (a :: A'), (a :: A').length, N.dropWhile isDigitC) := by
    conv_lhs => rw [← hN, hA1]
    refine digitsU_digits (by simp) (by rw [← hA1]; exact hA) ?_
    rcases hcase with hd | ⟨t, hd, _⟩
    · exact Or.inl hd
    · exact Or.inr ⟨t, hd⟩
  rcases hcase with hd | ⟨t, hd, ht⟩
  · rw [ratOfNumeral_eq_of_nil hd, hA1]
    simp only [pyFloatOfList, hstrip, hsign, hdig, hd, expPart, Option.map_some]
    rw [if_neg hne1, if_neg hne2]
    norm_num
  · rw [ratOfNumeral_eq_of_dot hd, hA1]
    cases t with
    | nil =>
      simp only [pyFloatOfList, hstrip, hsign, hdig, hd, Option.map_some]
      rw [if_neg hne1, if_neg hne2]
      norm_num [digitsU, expPart, natOfDigits_nil]
    | cons b t' =>
      have htb : isDigitC b = true := ht b (List.mem_cons_self b t')
      have hdig2 : digitsU (b :: t') =
          some (natOfDigits (b :: t'), (b :: t').length, []) := by
        conv_lhs => rw [← List.append_nil (b :: t')]
        exact digitsU_digits (by simp) (by simpa using ht) (Or.inl rfl)
      simp only [pyFloatOfList, hstrip, hsign, hdig, hd, hdig2, expPart,
        Option.map_some]
      rw [if_neg hne1, if_neg hne2]
      norm_num

lemma numeralShape_chars {N : List Char} (h : numeralShape N = true) :
    ∀ c ∈ N, isDigitC c = true ∨ c = '.' := by
  obtain ⟨_, hcase⟩ := numeralShape_parts h
  have hA : ∀ c ∈ N.takeWhile isDigitC, isDigitC c = true :=
    fun c hc => List.mem_takeWhile_imp hc
  have hN : N.takeWhile isDigitC ++ N.dropWhile isDigitC = N :=
    List.takeWhile_append_dropWhile isDigitC N
  intro c hc
  rw [← hN] at hc
  rcases List.mem_append.mp hc with hc | hc
  · exact Or.inl (hA c hc)
  · rcases hcase with hd | ⟨t, hd, ht⟩
    · rw [hd] at hc
      simp at hc
    · rw [hd] at hc
      rcases List.mem_cons.mp hc with rfl | hc
      · exact Or.inr rfl
      · exact Or.inl (ht c hc)

lemma splitOnce_append {D N : List Char} (h : ∀ c ∈ D, ¬(c = ' ')) :
    splitOnceOnSpace (D ++ ' ' :: N) = some (D, N) := by
  induction D with
  | nil => simp [splitOnceOnSpace]
  | cons c cs ih =>
    rw [List.cons_append]
    simp only [splitOnceOnSpace]
    rw [if_neg (h c (List.mem_cons_self c cs)),
      ih (fun x hx => h x (List.mem_cons_of_mem c hx))]
    rfl

lemma strip_msg {D N : List Char} (hD0 : D ≠ [])
    (hD : ∀ c ∈ D, isPySpace c = false)
    (hN0 : N ≠ []) (hN : ∀ c ∈ N, isDigitC c = true ∨ c = '.') :
    pyStripList (D ++ ' ' :: N) = D ++ ' ' :: N := by
  have hNspace : ∀ c ∈ N, isPySpace c = false := by
    intro c hc
    rcases hN c hc with hd | rfl
    · exact isPySpace_of_digit hd
    · decide
  refine pyStrip_eq_self ?_ ?_
  · intro c hc
    cases D with
    | nil => exact absurd rfl hD0
    | cons d D' =>
      rw [List.cons_append] at hc
      simp only [List.head?_cons, Option.some.injEq] at hc
      subst hc
      exact hD d (List.mem_cons_self d D')
  · intro c hc
    have hgl : N.getLast? = some (N.getLast hN0) :=
      Option.mem_def.mp (List.getLast_mem_getLast? hN0)
    have e : (D ++ ' ' :: N).getLast? = some (N.getLast hN0) := by
      rw [show D ++ ' ' :: N = D ++ [' '] ++ N by simp, List.getLast?_append, hgl]
      rfl
    rw [e] at hc
    simp only [Option.some.injEq] at hc
    subst hc
    exact hNspace _ (List.getLast_mem hN0)

lemma lower_msg {D N : List Char} (hD : ∀ c ∈ D, lowerChar c = c)
    (hN : ∀ c ∈ N, isDigitC c = true ∨ c = '.') :
    pyLowerList (D ++ ' ' :: N) = D ++ ' ' :: N := by
  unfold pyLowerList
  rw [List.map_congr_left (g := id) ?_, List.map_id]
  intro c hc
  rcases List.mem_append.mp hc with hc | hc
  · exact hD c hc
  · rcases List.mem_cons.mp hc with rfl | hc
    · decide
    · rcases hN c hc with hd | rfl
      · exact lowerChar_of_digit hd
      · decide

lemma ratOfNumeral_nonneg (l : List Char) : 0 ≤ ratOfNumeral l := by
  unfold ratOfNumeral
  split
  · split
    · positivity
    · positivity
  · positivity

/-! ### Helper lemmas: the Amount Parser cleaning pipeline -/

lemma filter_digit_replaceRp (l : List Char) :
    (pyReplaceRp l).filter isDigitC = l.filter isDigitC := by
  induction l using pyReplaceRp.induct with
  | case1 => rfl
  | case2 c => rfl
  | case3 c c2 rest h ih =>
    obtain ⟨rfl, rfl⟩ := h
    rw [show pyReplaceRp ('R' :: 'p' :: rest) = pyReplaceRp rest from by simp [pyReplaceRp], ih]
    simp [List.filter_cons, show isDigitC 'R' = false from by decide,
      show isDigitC 'p' = false from by decide]
  | case4 c c2 rest h ih =>
    simp only [pyReplaceRp, if_neg h, List.filter_cons, ih]

lemma filter_digit_dropSpace (m : List Char) :
    (m.dropWhile isPySpace).filter isDigitC = m.filter isDigitC := by
  conv_rhs => rw [← List.takeWhile_append_dropWhile isPySpace m]
  rw [List.filter_append]
  have h : (m.takeWhile isPySpace).filter isDigitC = [] := by
    rw [List.filter_eq_nil_iff]
    intro a ha
    have hs : isPySpace a = true := List.mem_takeWhile_imp ha
    intro hd
    rw [isPySpace_of_digit hd] at hs
    exact Bool.false_ne_true hs
  rw [h, List.nil_append]

lemma filter_digit_strip (l : List Char) :
    (pyStripList l).filter isDigitC = l.filter isDigitC := by
  unfold pyStripList
  rw [List.filter_reverse, filter_digit_dropSpace, List.filter_reverse,
    List.reverse_reverse, filter_digit_dropSpace]

lemma filter_digit_dots (m : List Char) :
    ((m.filter (fun c => c ≠ '.')).filter (fun c => c ≠ ',')).filter isDigitC
      = m.filter isDigitC := by
  rw [List.filter_filter, List.filter_filter]
  refine List.filter_congr ?_
  intro a _
  cases hd : isDigitC a with
  | false => simp
  | true => simp [(digit_ne hd).2.2.1, (digit_ne hd).2.2.2.2]

lemma parse_rupiah_str (s : String) :
    parse_rupiah_amount (.str s) = .num (natOfDigits (s.toList.filter isDigitC)) := by
  simp only [parse_rupiah_amount]
  rw [filter_digit_dots, filter_digit_strip, filter_digit_replaceRp]

/-! ### Helper lemmas: the aggregation loop as a filter-and-sum -/

lemma dailyStep_eq (t : String) (u : PyObj) (acc : PFloat) (r : SheetRecord) :
    dailyStep t u acc r =
      if specMatches t u r = true then
        acc.add (parse_rupiah_amount (r.amountF.getD .other))
      else acc := by
  rcases r with ⟨d, a, w⟩
  cases d <;> cases a <;> simp [dailyStep, specMatches]

lemma foldl_dailyStep (t : String) (u : PyObj) (l : List SheetRecord) : ∀ acc,
    l.foldl (dailyStep t u) acc =
      (l.filter (specMatches t u)).foldl
        (fun acc r => acc.add (parse_rupiah_amount (r.amountF.getD .other))) acc := by
  induction l with
  | nil => intro acc; rfl
  | cons r tl ih =>
    intro acc
    rw [List.foldl_cons, dailyStep_eq, List.filter_cons]
    by_cases h : specMatches t u r = true
    · simp [h, List.foldl_cons, ih]
    · simp [h, ih]

lemma dailyStep_keyless {t : String} {u : PyObj} {acc : PFloat} {r : SheetRecord}
    (h : r.dateF = none ∨ r.amountF = none) : dailyStep t u acc r = acc := by
  rcases r with ⟨d, a, w⟩
  cases d <;> cases a <;> simp_all [dailyStep]

lemma foldl_keyFilter (t : String) (u : PyObj) (l : List SheetRecord) : ∀ acc,
    l.foldl (dailyStep t u) acc =
      (l.filter (fun r => r.dateF.isSome && r.amountF.isSome)).foldl (dailyStep t u) acc := by
  induction l with
  | nil => intro acc; rfl
  | cons r tl ih =>
    intro acc
    rw [List.foldl_cons, List.filter_cons]
    by_cases h : (r.dateF.isSome && r.amountF.isSome) = true
    · rw [if_pos h, List.foldl_cons, ih]
    · have hk : r.dateF = none ∨ r.amountF = none := by
        rcases r with ⟨d, a, w⟩
        cases d <;> cases a <;> simp_all
      rw [if_neg h, dailyStep_keyless hk, ih]

lemma pyRound2_zero : pyRound2 0 = 0 := by with_unfolding_all rfl

/-! ### The claims -/

/-- Claim C1, counterexample: the claim asserts that for a numeric amount A
and a digit-free description D, the message "A D" parses to (A, D); but on
"25000 makan" the step-1 regex matches "25000 ma" (its `\s*` lets the suffix
sit after a space), so the parser returns description "kan", not "makan". -/
theorem claim1_counterexample :
    parse_flexible_message "25000 makan" ≠ some (.num 25000, "makan") ∧
    parse_flexible_message "25000 makan" = some (.num 25000, "kan") := by
  have e : parse_flexible_message "25000 makan" = some (.num 25000, "kan") := by
    with_unfolding_all rfl
  refine ⟨?_, e⟩
  rw [e]
  intro h
  simp at h

/-- Claim C1, amended: only the "D A" order round-trips. For every single-token
description D (non-empty, containing no digits, no whitespace, lowercase-stable,
and not itself parseable by Python's float()) and every numeral A of the shape
`\d+\.?\d*`, parsing "D A" returns exactly (value of A, D); the "A D" order can
instead consume the leading letters of D as a magnitude suffix. -/
theorem claim1_theorem (D N : List Char) (hD0 : D ≠ [])
    (hD : ∀ c ∈ D, isDigitC c = false ∧ isPySpace c = false ∧ lowerChar c = c)
    (hDf : pyFloatOfList D = none)
    (hN : numeralShape N = true) :
    parse_flexible_message (String.mk (D ++ ' ' :: N)) =
      some (.num (ratOfNumeral N), String.mk D) := by
  have hNchars := numeralShape_chars hN
  have hN0 : N ≠ [] := by
    intro he
    obtain ⟨h1, _⟩ := numeralShape_parts hN
    rw [he] at h1
    exact h1 rfl
  have hmsg : (String.mk (D ++ ' ' :: N)).toList = D ++ ' ' :: N := rfl
  have hstrip := strip_msg hD0 (fun c hc => (hD c hc).2.1) hN0 hNchars
  have hlow := lower_msg (fun c hc => (hD c hc).2.2) hNchars
  have hsearch : searchMatch (D ++ ' ' :: N) = none := by
    rw [show D ++ ' ' :: N = (D ++ [' ']) ++ N by simp]
    refine searchMatch_skip ?_ (searchMatch_digitdot hNchars)
    intro c hc
    rcases List.mem_append.mp hc with hc | hc
    · exact (hD c hc).1
    · simp only [List.mem_singleton] at hc
      subst hc
      decide
  have hsplit : splitOnceOnSpace (D ++ ' ' :: N) = some (D, N) := by
    refine splitOnce_append (fun c hc he => ?_)
    subst he
    have h2 := (hD ' ' hc).2.1
    exact absurd h2 (by decide)
  have hDstrip : pyStripList D = D := pyStrip_of_noSpace (fun c hc => (hD c hc).2.1)
  have hNf := pyFloat_numeral hN
  simp only [parse_flexible_message, hmsg, hstrip, hlow, hsearch, hsplit, hDf, hNf, hDstrip]

/-- Claim C1, witness: the amended round-trip at D = "makan", A = "25000". -/
theorem claim1_witness :
    parse_flexible_message (String.mk ("makan".toList ++ ' ' :: "25000".toList)) =
      some (.num (ratOfNumeral "25000".toList), String.mk "makan".toList) :=
  claim1_theorem "makan".toList "25000".toList (by decide) (by decide) (by decide) (by decide)

/-- Claim C2, counterexample: the claim asserts that a number followed by a
space and then letters is never matched by step 1 and always goes through the
two-token fallback (which would give description "makan"); but on
"7000 makan" the step-1 regex does match (its `\s*` permits the space), eats
"ma" as an unrecognized suffix, and the parser returns (7000, "kan"). -/
theorem claim2_counterexample :
    parse_flexible_message "7000 makan" ≠ some (.num 7000, "makan") ∧
    parse_flexible_message "7000 makan" = some (.num 7000, "kan") := by
  have e : parse_flexible_message "7000 makan" = some (.num 7000, "kan") := by
    with_unfolding_all rfl
  refine ⟨?_, e⟩
  rw [e]
  intro h
  simp at h

/-- Claim C2, amended: the step-1 pattern allows optional whitespace between
the digits and the 1-2 letter suffix. Only a message whose number is followed
by no letters at all (e.g. "makan 25000", number at the end) fails step 1 and
falls to the two-token fallback, where the bare number becomes the amount and
the other token the description; "25000 sewa" instead is consumed by step 1,
which takes "se" as a suffix and leaves description "wa". -/
theorem claim2_theorem :
    searchMatch (pyLowerList (pyStripList ("makan 25000").toList)) = none ∧
    parse_flexible_message "makan 25000" = some (.num 25000, "makan") ∧
    parse_flexible_message "25000 sewa" = some (.num 25000, "wa") := by
  refine ⟨?_, ?_, ?_⟩ <;> with_unfolding_all rfl

/-- Claim C3: the four documented example messages parse exactly as stated:
"makan 25rb" to (25000.0, "makan"), "2jt sewa" to (2000000.0, "sewa"),
"belanja 1.5jt" to (1500000.0, "belanja"), and "hello" to no parse. -/
theorem claim3_theorem :
    parse_flexible_message "makan 25rb" = some (.num 25000, "makan") ∧
    parse_flexible_message "2jt sewa" = some (.num 2000000, "sewa") ∧
    parse_flexible_message "belanja 1.5jt" = some (.num 1500000, "belanja") ∧
    parse_flexible_message "hello" = none := by
  refine ⟨?_, ?_, ?_, ?_⟩ <;> with_unfolding_all rfl

/-- Claim C4: the magnitude-suffix table: k and rb multiply by 1000, m and jt
by 1000000, b by 1000000000, and an unrecognized suffix (e.g. "xy") leaves the
amount unmultiplied while its letters are still removed from the description. -/
theorem claim4_theorem :
    parse_flexible_message "10k test" = some (.num 10000, "test") ∧
    parse_flexible_message "10rb test" = some (.num 10000, "test") ∧
    parse_flexible_message "10m test" = some (.num 10000000, "test") ∧
    parse_flexible_message "10jt test" = some (.num 10000000, "test") ∧
    parse_flexible_message "10b test" = some (.num 10000000000, "test") ∧
    parse_flexible_message "10xy test" = some (.num 10, "test") := by
  refine ⟨?_, ?_, ?_, ?_, ?_, ?_⟩ <;> with_unfolding_all rfl

/-- Claim C5: the Amount Parser's full contract: numeric input passes through
unchanged as a float; a string input reduces to its digit characters (the
"Rp" removal, the strip, and the dot/comma removal only ever discard
non-digits) parsed as an integer-valued number with the empty digit string
giving zero; any other input yields zero, so every input produces a numeric
result; and the four documented examples hold. -/
theorem claim5_theorem :
    (∀ n : ℤ, parse_rupiah_amount (.int n) = .num (n : ℚ)) ∧
    (∀ f : PFloat, parse_rupiah_amount (.float f) = f) ∧
    (∀ s : String, parse_rupiah_amount (.str s) =
      .num (natOfDigits (s.toList.filter isDigitC))) ∧
    parse_rupiah_amount .other = .num 0 ∧
    parse_rupiah_amount (.str "Rp1.000.000") = .num 1000000 ∧
    parse_rupiah_amount (.str "Rp25.000") = .num 25000 ∧
    parse_rupiah_amount (.str "") = .num 0 ∧
    parse_rupiah_amount (.int 12345) = .num 12345 := by
  refine ⟨fun n => rfl, fun f => rfl, parse_rupiah_str, rfl, ?_, ?_, ?_, ?_⟩ <;>
    with_unfolding_all rfl

/-- Claim C6, counterexample: the claim asserts the parsers never produce a
negative amount, but the two-token fallback accepts a signed float literal:
"makan -5000" parses to the negative amount -5000. -/
theorem claim6_counterexample :
    parse_flexible_message "makan -5000" = some (.num (-5000), "makan") ∧
    ((-5000 : ℚ) < 0) := by
  constructor
  · with_unfolding_all rfl
  · norm_num

/-- Claim C6, amended: string inputs to the Amount Parser always yield a
non-negative finite value, and every amount produced by the Message Parser's
step-1 (suffix) path is non-negative; but the two-token fallback can return a
negative amount for an explicitly signed numeric token, and numeric
passthrough preserves the sign of its input. -/
theorem claim6_theorem :
    (∀ s : String, ∃ q : ℚ, parse_rupiah_amount (.str s) = .num q ∧ 0 ≤ q) ∧
    (∀ (msg : String) (b g1 g2 a : List Char),
      searchMatch (pyLowerList (pyStripList msg.toList)) = some (b, g1, g2, a) →
      ∃ (q : ℚ) (d : String), parse_flexible_message msg = some (.num q, d) ∧ 0 ≤ q) := by
  constructor
  · intro s
    rw [parse_rupiah_str]
    exact ⟨_, rfl, by positivity⟩
  · intro msg b g1 g2 a h
    simp only [parse_flexible_message, h]
    refine ⟨_, _, rfl, ?_⟩
    cases hm : multLookupN g2 with
    | none => exact ratOfNumeral_nonneg g1
    | some m => exact mul_nonneg (ratOfNumeral_nonneg g1) (by positivity)

/-- Claim C6, witness: the amended statement applied to "makan 25rb", whose
processed text is matched by the step-1 search. -/
theorem claim6_witness :
    ∃ (q : ℚ) (d : String),
      parse_flexible_message "makan 25rb" = some (.num q, d) ∧ 0 ≤ q :=
  claim6_theorem.2 "makan 25rb" "makan ".toList "25".toList "rb".toList []
    (by with_unfolding_all rfl)

/-- Claim C7: the daily total over a record list equals the rounded sum of the
Amount-Parser-parsed amounts of exactly the records carrying both keys whose
Date's day portion string-equals today and whose UserID stringification
contains the queried id as a substring; with no matching record it is zero;
and two same-day same-user records with amounts 10000 and "Rp5.000" total
15000.0. -/
theorem claim7_theorem :
    (∀ (l : List SheetRecord) (today : String) (uid : PyObj),
      get_daily_total (.ok l) today uid = specDailyTotal today uid l) ∧
    (∀ (l : List SheetRecord) (today : String) (uid : PyObj),
      (∀ r ∈ l, specMatches today uid r = false) →
      get_daily_total (.ok l) today uid = .num 0) ∧
    get_daily_total
      (.ok [⟨some (.str "2026-10-12 09:00:00"), some (.int 10000), some (.str "u777")⟩,
            ⟨some (.str "2026-10-12 11:00:00"), some (.str "Rp5.000"), some (.str "u777")⟩])
      "2026-10-12" (.str "777") = .num 15000 := by
  have main : ∀ (l : List SheetRecord) (today : String) (uid : PyObj),
      get_daily_total (.ok l) today uid = specDailyTotal today uid l := by
    intro l t u
    have e1 : get_daily_total (.ok l) t u =
        pyRoundPF (l.foldl (dailyStep t u) (.num 0)) := rfl
    rw [e1, foldl_dailyStep]
    rfl
  refine ⟨main, ?_, ?_⟩
  · intro l t u h
    rw [main]
    unfold specDailyTotal specSum
    rw [List.filter_eq_nil_iff.mpr (fun a ha => by simp [h a ha])]
    simp [pyRoundPF, pyRound2_zero]
  · with_unfolding_all rfl

/-- Claim C7, witness: the no-matching-record case at the empty record list. -/
theorem claim7_witness :
    get_daily_total (.ok []) "2026-10-12" (.str "7") = .num 0 :=
  claim7_theorem.2.1 [] "2026-10-12" (.str "7") (fun r hr => absurd hr (List.not_mem_nil r))

/-- Claim C8: the try/except wrapper of get_daily_total: whenever the guarded
aggregation raises, the whole aggregation is aborted and zero is returned —
the exception is never propagated and no partial sum escapes; on a successful
aggregation the computed total passes through unchanged.  In this model the
record read is the only raise point: the loop body is total and
`round(x, 2)` never raises on a float (`round(float("inf"), 2) == inf`). -/
theorem claim8_theorem :
    (∀ (rE : Except Unit (List SheetRecord)) (t : String) (u : PyObj),
      aggregate rE t u = .error () → get_daily_total rE t u = .num 0) ∧
    (∀ (t : String) (u : PyObj), get_daily_total (.error ()) t u = .num 0) ∧
    (∀ (rE : Except Unit (List SheetRecord)) (t : String) (u : PyObj) (v : PFloat),
      aggregate rE t u = .ok v → get_daily_total rE t u = v) := by
  refine ⟨?_, fun t u => rfl, ?_⟩
  · intro rE t u h
    unfold get_daily_total
    rw [h]
  · intro rE t u v h
    unfold get_daily_total
    rw [h]

/-- Claim C8, witness: a failing record read yields a zero total. -/
theorem claim8_witness :
    get_daily_total (.error ()) "2026-10-12" (.str "7") = .num 0 :=
  claim8_theorem.1 (.error ()) "2026-10-12" (.str "7") rfl

/-- Claim C9: parse_rupiah_amount is idempotent on its own output: feeding the
(float) result back in returns it unchanged, because numeric inputs pass
through. -/
theorem claim9_theorem :
    ∀ x : PyObj,
      parse_rupiah_amount (.float (parse_rupiah_amount x)) = parse_rupiah_amount x :=
  fun _ => rfl

/-- Claim C10: records lacking a Date or an Amount key are silently skipped:
the total over any record list equals the total over only its records carrying
both keys, and a list of only keyless records totals zero without error. -/
theorem claim10_theorem :
    (∀ (l : List SheetRecord) (t : String) (u : PyObj),
      get_daily_total (.ok l) t u =
        get_daily_total (.ok (l.filter (fun r => r.dateF.isSome && r.amountF.isSome))) t u) ∧
    (∀ (l : List SheetRecord) (t : String) (u : PyObj),
      (∀ r ∈ l, r.dateF = none ∨ r.amountF = none) →
      get_daily_total (.ok l) t u = .num 0) := by
  have key : ∀ (l : List SheetRecord) (t : String) (u : PyObj),
      l.foldl (dailyStep t u) (.num 0) =
        (l.filter (fun r => r.dateF.isSome && r.amountF.isSome)).foldl
          (dailyStep t u) (.num 0) :=
    fun l t u => foldl_keyFilter t u l (.num 0)
  have e1 : ∀ (l : List SheetRecord) (t : String) (u : PyObj),
      get_daily_total (.ok l) t u =
        pyRoundPF (l.foldl (dailyStep t u) (.num 0)) := fun _ _ _ => rfl
  constructor
  · intro l t u
    rw [e1, e1, key]
  · intro l t u h
    rw [e1, key]
    rw [List.filter_eq_nil_iff.mpr ?_]
    · simp [pyRoundPF, pyRound2_zero]
    · intro a ha
      rcases h a ha with hd | hd <;> simp [hd]

/-- Claim C10, witness: a single record lacking both the Date and UserID keys
contributes nothing: the total is zero. -/
theorem claim10_witness :
    get_daily_total (.ok [⟨none, some (.int 3), none⟩]) "2026-10-12" (.str "7") = .num 0 :=
  claim10_theorem.2 [⟨none, some (.int 3), none⟩] "2026-10-12" (.str "7") (by decide)
